import Mathlib

/-!
Shallow embedding of `bevy_picking_state_machine` (files `lib.rs`,
`transitions.rs`, `local.rs`, `propagation.rs`).

Modelling conventions:
* `Entity` is `Nat` (bevy entity ids are opaque, only compared for equality).
* `f32` quantities (positions, times, hit depth, batch order) are modelled as
  `ℚ`: the source only compares and subtracts them, and all comparisons in the
  source go through the total order on finite floats.
* The `(f32::NEG_INFINITY, Reverse(f32::INFINITY))` sentinel that initialises
  the running maximum in `picking_state_machine_system` is modelled as
  `Option.none` (every finite key beats the sentinel, and `none` is beaten by
  every key).
* Bevy queries become explicit lookup functions (`Entity → Option _`), and the
  mutable `ResMut<PickingStateMachine>` becomes explicit state passing.
* `press.unwrap()` in `picking_state_machine_system` is a possible panic, so
  that system returns `Option PickingStateMachine`, `none` being the panic.
* The unbounded ancestor-chain `while` loops in `propagation.rs` take an
  explicit fuel parameter; for an acyclic parent relation any fuel at least
  the chain length computes the source's answer.
-/

/-- Mouse buttons, as in bevy's `MouseButton`. -/
inductive MouseButton where
  | left
  | right
  | middle
  | back
  | forward
  | other (id : Nat)
deriving DecidableEq, Repr

/-- Entities are opaque ids. -/
abbrev Entity := Nat

/-- Positions are 2d rational vectors (model of `Vec2`). -/
abbrev Vec2 := ℚ × ℚ

/-- Picking state of an entity (`EntityPickingState` in `lib.rs`). -/
inductive EntityPickingState where
  | none
  | hover
  | pressed
deriving DecidableEq, Repr

/-- Picking state globally (`GlobalPickingState` in `lib.rs`). -/
inductive GlobalPickingState where
  | none
  | hover (entity : Entity)
  | pressed (entity : Entity)
deriving DecidableEq, Repr

/-- State for a button press (`PressState` in `lib.rs`). -/
structure PressState where
  button : MouseButton
  position : Vec2
  time : ℚ
deriving DecidableEq, Repr

/-- A picking transition event (`PickingTransition` in `transitions.rs`). -/
inductive PickingTransition where
  | pressed (entity : Entity) (button : MouseButton)
  | released (entity : Entity) (button : MouseButton) (down : Vec2) (time : ℚ)
      (outside : Bool)
  | hoverEnter (entity : Entity)
  | hoverExit (entity : Entity)
  | cancelled (entity : Entity) (button : MouseButton) (down : Vec2) (time : ℚ)
deriving DecidableEq, Repr

/-- Entity addressed by a transition (`PickingTransition::entity`). -/
def PickingTransition.entity : PickingTransition → Entity
  | .pressed e _ => e
  | .released e _ _ _ _ => e
  | .hoverEnter e => e
  | .hoverExit e => e
  | .cancelled e _ _ _ => e

/-- A channel of 0, 1 or 2 transitions (`PickingTransitions` in
`transitions.rs`); `fromTo a b` is `FromTo([a, b])`. -/
inductive PickingTransitions where
  | none
  | one (item : PickingTransition)
  | fromTo (fst snd : PickingTransition)
deriving DecidableEq, Repr

/-- Contents as a list (the `Deref` impl of `PickingTransitions`). -/
def PickingTransitions.toList : PickingTransitions → List PickingTransition
  | .none => []
  | .one t => [t]
  | .fromTo a b => [a, b]

/-- Global state machine resource (`PickingStateMachine` in `lib.rs`). -/
structure PickingStateMachine where
  previous : GlobalPickingState
  current : GlobalPickingState
  pointer : Vec2
  press : Option PressState
  current_btn_just_pressed : Bool
  pointer_is_out_of_bounds : Bool
  is_post_cancellation_state : Bool
  transitions : PickingTransitions
deriving DecidableEq, Repr

namespace PickingStateMachine

/-- `PickingStateMachine::get_state` from `lib.rs` (lines 150-168), embedded
verbatim: note that the `Pressed` arm of the source returns
`EntityPickingState::Hover`. -/
def get_state (m : PickingStateMachine) (entity : Entity) : EntityPickingState :=
  match m.current with
  | .none => .none
  | .hover e => if entity = e then .hover else .none
  | .pressed e => if entity = e then .hover else .none

/-- `PickingStateMachine::get_transition`. -/
def get_transition (m : PickingStateMachine) (entity : Entity) :
    Option PickingTransition :=
  m.transitions.toList.find? (fun x => x.entity == entity)

/-- `GlobalPickingState::current_entity`. -/
def currentEntityOf : GlobalPickingState → Option Entity
  | .none => Option.none
  | .hover e => some e
  | .pressed e => some e

/-- `PickingStateMachine::get_active_entity`. -/
def get_active_entity (m : PickingStateMachine) : Option Entity :=
  currentEntityOf m.current

/-- `PickingStateMachine::can_acquire_new_target` (lib.rs lines 190-193). -/
def can_acquire_new_target (m : PickingStateMachine) : Bool :=
  !m.is_post_cancellation_state && (m.press.isNone || m.current_btn_just_pressed)

/-- `PickingStateMachine::queue_transitions` from `transitions.rs`
(lines 91-183): replaces `transitions` with the events derived from
`(previous, current)` and the press record. -/
def queue_transitions (m : PickingStateMachine) (now : ℚ) : PickingStateMachine :=
  let time : ℚ := match m.press with | some x => now - x.time | Option.none => 0
  let button : MouseButton :=
    match m.press with | some x => x.button | Option.none => .left
  let down : Vec2 := match m.press with | some x => x.position | Option.none => (0, 0)
  let ts : PickingTransitions :=
    match m.previous, m.current with
    | .none, .none => .none
    | .none, .hover e => .one (.hoverEnter e)
    | .none, .pressed e => .one (.pressed e button)
    | .hover e, .none => .one (.hoverExit e)
    | .hover e1, .hover e2 =>
        if e1 = e2 then .none
        else .fromTo (.hoverExit e1) (.hoverEnter e2)
    | .hover e1, .pressed e2 =>
        if e1 = e2 then .one (.pressed e1 button)
        else .fromTo (.hoverExit e1) (.pressed e2 button)
    | .pressed e, .none =>
        if m.is_post_cancellation_state then .one (.cancelled e button down time)
        else .one (.released e button down time true)
    | .pressed e1, .hover e2 =>
        if e1 = e2 then .one (.released e1 button down time false)
        else .fromTo (.released e1 button down time true) (.hoverEnter e2)
    | .pressed e1, .pressed e2 =>
        if e1 ≠ e2 || m.current_btn_just_pressed then
          .fromTo (.released e1 button down time true) (.pressed e2 button)
        else .none
  { m with transitions := ts }

end PickingStateMachine

/-- The scanning loop of `picking_button_system` (lib.rs lines 225-238) over
the allowed-buttons list, carrying `(current_button, just_pressed)` and
returning `(current_button, cancel, just_pressed)`; the `break` on a second
pressed entry returns immediately with `cancel = true`. -/
def buttonScan (isPressed isJustPressed : MouseButton → Bool) :
    List MouseButton → Option MouseButton → Bool →
    Option MouseButton × Bool × Bool
  | [], cb, jp => (cb, false, jp)
  | b :: rest, cb, jp =>
    if isPressed b then
      let jp := jp || isJustPressed b
      match cb with
      | Option.none => buttonScan isPressed isJustPressed rest (some b) jp
      | some _ => (Option.none, true, jp)
    else buttonScan isPressed isJustPressed rest cb jp

/-- `picking_button_system` from `lib.rs` (lines 215-265). Inputs are the
configured allowed-buttons list, the per-button pressed / just-pressed
queries and the frame time; returns the updated machine and the piped
`current_button.is_some()` flag. -/
def picking_button_system (allowed : List MouseButton)
    (isPressed isJustPressed : MouseButton → Bool) (now : ℚ)
    (m : PickingStateMachine) : PickingStateMachine × Bool :=
  let scan := buttonScan isPressed isJustPressed allowed Option.none false
  let current_button := scan.1
  let just_pressed := scan.2.2
  let cancel := scan.2.1 ||
    (match m.press, current_button with
     | some ps, some b => b ≠ ps.button
     | _, _ => false)
  let m := { m with current_btn_just_pressed := false }
  let m :=
    if cancel then { m with is_post_cancellation_state := true }
    else if m.is_post_cancellation_state && current_button.isNone then
      { m with is_post_cancellation_state := false }
    else if just_pressed then { m with current_btn_just_pressed := true }
    else m
  let m :=
    match current_button with
    | some b => { m with press := some ⟨b, m.pointer, now⟩ }
    | Option.none => m
  (m, current_button.isSome)

/-- One batch of hit candidates (the fields of bevy's `PointerHits` that the
system reads: the batch `order` and the `(entity, depth)` picks). -/
structure HitBatch where
  order : ℚ
  picks : List (Entity × ℚ)
deriving DecidableEq, Repr

/-- The lexicographic comparison `priority > min` on
`(f32, Reverse<f32>)` pairs: higher batch order wins, and on equal order
the smaller depth wins. -/
def keyGT (a b : ℚ × ℚ) : Bool :=
  decide (b.1 < a.1) || (decide (a.1 = b.1) && decide (a.2 < b.2))

/-- Comparison against the running maximum, whose initial sentinel
`(NEG_INFINITY, Reverse(INFINITY))` is modelled as `none`. -/
def keyGTOpt (a : ℚ × ℚ) : Option (ℚ × ℚ) → Bool
  | Option.none => true
  | some b => keyGT a b

/-- The inner pick loop of `picking_state_machine_system` (lib.rs
lines 286-299) for one batch: walks the `(entity, depth)` picks keeping the
running maximum `(min, target)`; the boolean result records whether
`break 'main` fired (the lock-in on the pressed entity). -/
def scanPicks (cur : Option Entity) (can : Bool) (order : ℚ) :
    List (Entity × ℚ) → Option (ℚ × ℚ) → Option Entity →
    Bool × Option (ℚ × ℚ) × Option Entity
  | [], min, tgt => (false, min, tgt)
  | (e, depth) :: rest, min, tgt =>
    if some e = cur then (true, min, cur)
    else if can then
      if keyGTOpt (order, depth) min then
        scanPicks cur can order rest (some (order, depth)) (some e)
      else scanPicks cur can order rest min tgt
    else scanPicks cur can order rest min tgt

/-- The outer `'main` loop over hit batches (lib.rs lines 285-300). -/
def scanBatches (cur : Option Entity) (can : Bool) :
    List HitBatch → Option (ℚ × ℚ) → Option Entity → Option Entity
  | [], _, tgt => tgt
  | b :: rest, min, tgt =>
    match scanPicks cur can b.order b.picks min tgt with
    | (true, _, tgt') => tgt'
    | (false, min', tgt') => scanBatches cur can rest min' tgt'

/-- Target selection of `picking_state_machine_system`, starting from the
sentinel maximum and no target. -/
def selectTarget (cur : Option Entity) (can : Bool) (batches : List HitBatch) :
    Option Entity :=
  scanBatches cur can batches Option.none Option.none

/-- The `current` binding of `picking_state_machine_system` (lib.rs
lines 279-283): the locked-in entity, meaningful only when pressed. -/
def currentPressedEntity : GlobalPickingState → Option Entity
  | .pressed e => some e
  | _ => Option.none

/-- The `match target` state-resolution step of
`picking_state_machine_system` (lib.rs lines 302-339), taking the machine
after the `previous := current` shift. The `press.unwrap()` on line 329 is
a possible panic, modelled by `Option.none`. -/
def resolveTarget (cancel_hover : Bool)
    (filters : Entity → Option (List MouseButton)) (pressed : Bool)
    (target : Option Entity) (m : PickingStateMachine) :
    Option PickingStateMachine :=
  match target with
  | Option.none =>
    if pressed && !m.current_btn_just_pressed then
      match m.current with
      | .pressed _ => some m
      | _ => some { m with current := .none }
    else some { m with current := .none }
  | some entity =>
    if m.is_post_cancellation_state then
      match m.current with
      | .hover e =>
        if e = entity && !cancel_hover then
          some { m with current := .hover entity }
        else some { m with current := .none }
      | _ => some { m with current := .none }
    else if !pressed then some { m with current := .hover entity }
    else
      match filters entity with
      | some filter =>
        match m.press with
        | Option.none => Option.none
        | some ps =>
          if filter.contains ps.button then
            some { m with current := .pressed entity }
          else some { m with current := .hover entity }
      | Option.none => some { m with current := .pressed entity }

/-- `picking_state_machine_system` from `lib.rs` (lines 267-344).
`filters` models the `Query<&ButtonFilter>` as a partial map from entities
to button lists; `ButtonFilter::contains` is `List.contains`. `none` is the
`press.unwrap()` panic. -/
def picking_state_machine_system (cancel_hover : Bool)
    (filters : Entity → Option (List MouseButton)) (pressed : Bool) (now : ℚ)
    (batches : List HitBatch) (m : PickingStateMachine) :
    Option PickingStateMachine :=
  let target := selectTarget (currentPressedEntity m.current)
    m.can_acquire_new_target batches
  match resolveTarget cancel_hover filters pressed target
      { m with previous := m.current } with
  | Option.none => Option.none
  | some m =>
    let m := m.queue_transitions now
    some (if pressed then m else { m with press := Option.none })

/-- One whole frame of the plugin's `PreUpdate` pipeline after the window
system: `picking_button_system` piped into `picking_state_machine_system`
(both read the same frame time). -/
def frameStep (allowed : List MouseButton)
    (isPressed isJustPressed : MouseButton → Bool) (cancel_hover : Bool)
    (filters : Entity → Option (List MouseButton)) (now : ℚ)
    (batches : List HitBatch) (m : PickingStateMachine) :
    Option PickingStateMachine :=
  let (m, pressed) := picking_button_system allowed isPressed isJustPressed now m
  picking_state_machine_system cancel_hover filters pressed now batches m

/-- Propagation policy (`PickingPropagation` in `propagation.rs`). -/
inductive PickingPropagation where
  | propagateDown
  | propagateUp (n : Nat)
  | andPropagateUp (n : Nat)
  | noPropagation
deriving DecidableEq, Repr

/-- The ancestor-chain `while` loop of the `PropagateDown` arm of
`entity_equivalent` (propagation.rs lines 43-49): walks the strict ancestors
of `cur` looking for `t`. The source loop is unbounded; `fuel` bounds the
walk, and any fuel at least the chain length gives the loop's answer on an
acyclic parent relation. -/
def ancestorHits1 (parent : Entity → Option Entity) (t : Entity) :
    Nat → Entity → Bool
  | 0, _ => false
  | fuel + 1, cur =>
    match parent cur with
    | Option.none => false
    | some p => if p = t then true else ancestorHits1 parent t fuel p

/-- The ancestor-chain `while` loop of the `PropagateUp` arm
(propagation.rs lines 61-67): looks for `t1` or `t2`, with the same fuel
convention as `ancestorHits1`. -/
def ancestorHits2 (parent : Entity → Option Entity) (t1 t2 : Entity) :
    Nat → Entity → Bool
  | 0, _ => false
  | fuel + 1, cur =>
    match parent cur with
    | Option.none => false
    | some p => if p = t1 || p = t2 then true else ancestorHits2 parent t1 t2 fuel p

/-- The bounded `for _ in 0..count` walk computing the `root` of
`PropagateUp` (propagation.rs lines 53-60): the n-th ancestor, stopping
early when the chain ends. -/
def nthAncestor (parent : Entity → Option Entity) : Nat → Entity → Entity
  | 0, e => e
  | n + 1, e =>
    match parent e with
    | some p => nthAncestor parent n p
    | Option.none => e

/-- The bounded upward walk of `AndPropagateUp` (propagation.rs
lines 78-88): steps up at most `n` parents from `cur` looking for `dest`. -/
def andUpHits (parent : Entity → Option Entity) (dest : Entity) :
    Nat → Entity → Bool
  | 0, _ => false
  | n + 1, cur =>
    match parent cur with
    | some p => if p = dest then true else andUpHits parent dest n p
    | Option.none => false

/-- `PropagatedPickingStateMachine::entity_equivalent` from
`propagation.rs` (lines 36-92); `parent` models the `ChildOf` query and
`prop` the `PickingPropagation` query. -/
def entity_equivalent (fuel : Nat) (parent : Entity → Option Entity)
    (prop : Entity → Option PickingPropagation) (active dest : Entity) : Bool :=
  if active = dest then true
  else
    match prop active with
    | some .noPropagation => active == dest
    | some .propagateDown | Option.none => ancestorHits1 parent active fuel dest
    | some (.propagateUp n) =>
      let root := nthAncestor parent n active
      ancestorHits2 parent active root fuel dest
    | some (.andPropagateUp n) =>
      ancestorHits1 parent active fuel dest || andUpHits parent dest n active

/-- Strict ancestor chain of an entity (`parent`, grandparent, ...), cut off
at `fuel` steps; the spec-side notion of "`to`'s ancestor chain". -/
def ancestors (parent : Entity → Option Entity) : Nat → Entity → List Entity
  | 0, _ => []
  | fuel + 1, e =>
    match parent e with
    | Option.none => []
    | some p => p :: ancestors parent fuel p

/-- Flattens hit batches into candidates `(entity, order, depth)` in
encounter order. -/
def flattenCands (batches : List HitBatch) : List (Entity × ℚ × ℚ) :=
  batches.flatMap (fun b => b.picks.map (fun p => (p.1, b.order, p.2)))

/-- Selection key of a flattened candidate. -/
def candKey (c : Entity × ℚ × ℚ) : ℚ × ℚ := c.2

/-- The per-candidate maximum scan, written over the flattened candidate
list; `scanBatches` with no locked-in entity and acquisition allowed
computes exactly this. -/
def scanCands : List (Entity × ℚ × ℚ) → Option (ℚ × ℚ) → Option Entity →
    Option Entity
  | [], _, tgt => tgt
  | (e, o, d) :: rest, min, tgt =>
    if keyGTOpt (o, d) min then scanCands rest (some (o, d)) (some e)
    else scanCands rest min tgt

/-- Modelled from the spec (section 4.3 step 4): "select the candidate with
the lexicographically greatest (batch order, negated depth) key ... ties are
broken by encounter order (first maximal element found)". `c` is the first
maximal candidate of `l` when every candidate before it has a strictly
smaller key and no candidate after it has a strictly greater key. -/
def IsFirstMax (l : List (Entity × ℚ × ℚ)) (c : Entity × ℚ × ℚ) : Prop :=
  ∃ l1 l2, l = l1 ++ c :: l2 ∧
    (∀ c1 ∈ l1, keyGT (candKey c) (candKey c1) = true) ∧
    (∀ c2 ∈ l2, keyGT (candKey c2) (candKey c) = false)

/-! Helper lemmas about the button-arbitration scan. -/

theorem buttonScan_count_zero (isP isJP : MouseButton → Bool) :
    ∀ (l : List MouseButton) (cb : Option MouseButton) (jp : Bool),
    l.countP isP = 0 → buttonScan isP isJP l cb jp = (cb, false, jp) := by
  intro l
  induction l with
  | nil => intro cb jp _; rfl
  | cons b rest ih =>
    intro cb jp h
    rw [List.countP_cons] at h
    by_cases hb : isP b = true
    · simp [hb] at h
    · simp only [buttonScan, hb, Bool.false_eq_true, if_false]
      exact ih cb jp (by simpa [hb] using h)

theorem buttonScan_some_break (isP isJP : MouseButton → Bool) :
    ∀ (l : List MouseButton) (b : MouseButton) (jp : Bool),
    1 ≤ l.countP isP →
    ∃ jp', buttonScan isP isJP l (some b) jp = (Option.none, true, jp') := by
  intro l
  induction l with
  | nil => intro b jp h; simp [List.countP_nil] at h
  | cons b0 rest ih =>
    intro b jp h
    by_cases hb : isP b0 = true
    · exact ⟨jp || isJP b0, by simp [buttonScan, hb]⟩
    · rw [List.countP_cons] at h
      simp only [hb] at h
      simp only [buttonScan, hb, Bool.false_eq_true, if_false]
      exact ih b jp (by simpa using h)

theorem buttonScan_count_one (isP isJP : MouseButton → Bool) :
    ∀ (l : List MouseButton) (jp : Bool),
    l.countP isP = 1 →
    ∃ b jp', b ∈ l ∧ isP b = true ∧
      buttonScan isP isJP l Option.none jp = (some b, false, jp') := by
  intro l
  induction l with
  | nil => intro jp h; simp [List.countP_nil] at h
  | cons b0 rest ih =>
    intro jp h
    rw [List.countP_cons] at h
    by_cases hb : isP b0 = true
    · simp only [hb, if_true] at h
      have hrest : rest.countP isP = 0 := by omega
      refine ⟨b0, jp || isJP b0, List.mem_cons_self b0 rest, hb, ?_⟩
      simp only [buttonScan, hb, if_true]
      exact buttonScan_count_zero isP isJP rest (some b0) (jp || isJP b0) hrest
    · simp only [hb] at h
      obtain ⟨b, jp', hmem, hpb, heq⟩ := ih jp (by simpa using h)
      refine ⟨b, jp', List.mem_cons_of_mem b0 hmem, hpb, ?_⟩
      simpa only [buttonScan, hb, Bool.false_eq_true, if_false] using heq

theorem buttonScan_count_two (isP isJP : MouseButton → Bool) :
    ∀ (l : List MouseButton) (jp : Bool),
    2 ≤ l.countP isP →
    ∃ jp', buttonScan isP isJP l Option.none jp = (Option.none, true, jp') := by
  intro l
  induction l with
  | nil => intro jp h; simp [List.countP_nil] at h
  | cons b0 rest ih =>
    intro jp h
    rw [List.countP_cons] at h
    by_cases hb : isP b0 = true
    · simp only [hb, if_true] at h
      have hrest : 1 ≤ rest.countP isP := by omega
      simp only [buttonScan, hb, if_true]
      exact buttonScan_some_break isP isJP rest b0 (jp || isJP b0) hrest
    · simp only [hb] at h
      simp only [buttonScan, hb, Bool.false_eq_true, if_false]
      exact ih jp (by simpa using h)

/-! Helper lemmas about the target-selection scan. -/

theorem scanPicks_break_tgt (cur : Option Entity) (can : Bool) (order : ℚ) :
    ∀ (picks : List (Entity × ℚ)) (min : Option (ℚ × ℚ)) (tgt : Option Entity),
    (scanPicks cur can order picks min tgt).1 = true →
    (scanPicks cur can order picks min tgt).2.2 = cur := by
  intro picks
  induction picks with
  | nil => intro min tgt h; simp [scanPicks] at h
  | cons p rest ih =>
    intro min tgt h
    obtain ⟨e, depth⟩ := p
    by_cases hc : some e = cur
    · simp [scanPicks, hc]
    · simp only [scanPicks, hc, if_false] at h ⊢
      cases can with
      | false =>
        simp only [Bool.false_eq_true, if_false] at h ⊢
        exact ih _ _ h
      | true =>
        simp only [if_true] at h ⊢
        by_cases hk : keyGTOpt (order, depth) min = true
        · simp only [hk, if_true] at h ⊢; exact ih _ _ h
        · simp only [hk, Bool.false_eq_true, if_false] at h ⊢; exact ih _ _ h

theorem scanPicks_mem_break (e : Entity) (can : Bool) (order : ℚ) :
    ∀ (picks : List (Entity × ℚ)) (min : Option (ℚ × ℚ)) (tgt : Option Entity)
    (d : ℚ), (e, d) ∈ picks →
    (scanPicks (some e) can order picks min tgt).1 = true := by
  intro picks
  induction picks with
  | nil => intro min tgt d h; simp at h
  | cons p rest ih =>
    intro min tgt d hmem
    obtain ⟨e0, depth0⟩ := p
    by_cases hc : some e0 = some e
    · simp [scanPicks, hc]
    · have hrest : (e, d) ∈ rest := by
        rcases List.mem_cons.mp hmem with heq | h
        · rw [Prod.mk.injEq] at heq
          exact absurd (congrArg some heq.1.symm) hc
        · exact h
      simp only [scanPicks, hc, if_false]
      cases can with
      | false =>
        simp only [Bool.false_eq_true, if_false]
        exact ih _ _ d hrest
      | true =>
        simp only [if_true]
        by_cases hk : keyGTOpt (order, depth0) min = true
        · simp only [hk, if_true]; exact ih _ _ d hrest
        · simp only [hk, Bool.false_eq_true, if_false]; exact ih _ _ d hrest

theorem scanBatches_locked (e : Entity) (can : Bool) :
    ∀ (batches : List HitBatch) (min : Option (ℚ × ℚ)) (tgt : Option Entity),
    (∃ b ∈ batches, ∃ d, (e, d) ∈ b.picks) →
    scanBatches (some e) can batches min tgt = some e := by
  intro batches
  induction batches with
  | nil => intro min tgt h; simp at h
  | cons b rest ih =>
    intro min tgt hmem
    rcases hscan : scanPicks (some e) can b.order b.picks min tgt with ⟨f, mn, tg⟩
    cases f with
    | true =>
      have htgt := scanPicks_break_tgt (some e) can b.order b.picks min tgt
        (by rw [hscan])
      rw [hscan] at htgt
      simp only [scanBatches, hscan]
      exact htgt
    | false =>
      have hb : ∀ d, (e, d) ∉ b.picks := by
        intro d hd
        have := scanPicks_mem_break e can b.order b.picks min tgt d hd
        rw [hscan] at this
        simp at this
      obtain ⟨b', hb', d, hd⟩ := hmem
      have hb'rest : b' ∈ rest := by
        rcases List.mem_cons.mp hb' with rfl | h
        · exact absurd hd (hb d)
        · exact h
      simp only [scanBatches, hscan]
      exact ih mn tg ⟨b', hb'rest, d, hd⟩

theorem selectTarget_locked (e : Entity) (can : Bool) (batches : List HitBatch)
    (h : ∃ b ∈ batches, ∃ d, (e, d) ∈ b.picks) :
    selectTarget (some e) can batches = some e :=
  scanBatches_locked e can batches Option.none Option.none h

theorem scanPicks_no_can (cur : Option Entity) (order : ℚ) :
    ∀ (picks : List (Entity × ℚ)) (min : Option (ℚ × ℚ)) (tgt : Option Entity),
    scanPicks cur false order picks min tgt = (true, min, cur) ∨
    scanPicks cur false order picks min tgt = (false, min, tgt) := by
  intro picks
  induction picks with
  | nil => intro min tgt; right; rfl
  | cons p rest ih =>
    intro min tgt
    obtain ⟨e, depth⟩ := p
    by_cases hc : some e = cur
    · left; simp [scanPicks, hc]
    · simp only [scanPicks, hc, if_false, Bool.false_eq_true]
      exact ih min tgt

theorem scanBatches_no_can (cur : Option Entity) :
    ∀ (batches : List HitBatch) (min : Option (ℚ × ℚ)) (tgt : Option Entity),
    scanBatches cur false batches min tgt = tgt ∨
    scanBatches cur false batches min tgt = cur := by
  intro batches
  induction batches with
  | nil => intro min tgt; left; rfl
  | cons b rest ih =>
    intro min tgt
    rcases scanPicks_no_can cur b.order b.picks min tgt with h | h
    · right; simp only [scanBatches, h]
    · simp only [scanBatches, h]
      exact ih min tgt

theorem selectTarget_no_can (cur : Option Entity) (batches : List HitBatch) :
    selectTarget cur false batches = Option.none ∨
    selectTarget cur false batches = cur :=
  scanBatches_no_can cur batches Option.none Option.none

/-! Free scan (no locked entity, acquisition allowed) equals the scan of the
flattened candidate list. -/

theorem scanPicks_free (order : ℚ) :
    ∀ (picks : List (Entity × ℚ)) (min : Option (ℚ × ℚ)) (tgt : Option Entity),
    (scanPicks Option.none true order picks min tgt).1 = false := by
  intro picks
  induction picks with
  | nil => intro min tgt; rfl
  | cons p rest ih =>
    intro min tgt
    obtain ⟨e, depth⟩ := p
    simp only [scanPicks, reduceCtorEq, if_false, if_true]
    by_cases hk : keyGTOpt (order, depth) min = true
    · simp only [hk, if_true]; exact ih _ _
    · simp only [hk, Bool.false_eq_true, if_false]; exact ih _ _

theorem scanPicks_free_eq (order : ℚ) :
    ∀ (picks : List (Entity × ℚ)) (l : List (Entity × ℚ × ℚ))
    (min : Option (ℚ × ℚ)) (tgt : Option Entity),
    scanCands (picks.map (fun p => (p.1, order, p.2)) ++ l) min tgt =
      scanCands l (scanPicks Option.none true order picks min tgt).2.1
        (scanPicks Option.none true order picks min tgt).2.2 := by
  intro picks
  induction picks with
  | nil => intro l min tgt; rfl
  | cons p rest ih =>
    intro l min tgt
    obtain ⟨e, depth⟩ := p
    simp only [List.map_cons, List.cons_append, scanCands, scanPicks,
      reduceCtorEq, if_false, if_true]
    by_cases hk : keyGTOpt (order, depth) min = true
    · simp only [hk, if_true]; exact ih l _ _
    · simp only [hk, Bool.false_eq_true, if_false]; exact ih l _ _

theorem scanBatches_free :
    ∀ (batches : List HitBatch) (min : Option (ℚ × ℚ)) (tgt : Option Entity),
    scanBatches Option.none true batches min tgt =
      scanCands (flattenCands batches) min tgt := by
  intro batches
  induction batches with
  | nil => intro min tgt; rfl
  | cons b rest ih =>
    intro min tgt
    rcases hscan : scanPicks Option.none true b.order b.picks min tgt
      with ⟨f, mn, tg⟩
    have hf := scanPicks_free b.order b.picks min tgt
    rw [hscan] at hf
    simp only at hf
    subst hf
    have heq := scanPicks_free_eq b.order b.picks (flattenCands rest) min tgt
    rw [hscan] at heq
    simp only at heq
    simp only [scanBatches, hscan, flattenCands, List.flatMap_cons]
    rw [← flattenCands]
    rw [heq]
    exact ih mn tg

/-! The selection key order and the first-maximum characterisation. -/

theorem keyGT_iff (a b : ℚ × ℚ) :
    keyGT a b = true ↔ b.1 < a.1 ∨ (a.1 = b.1 ∧ a.2 < b.2) := by
  simp [keyGT]

theorem keyGT_trans {a b c : ℚ × ℚ} (h1 : keyGT a b = true)
    (h2 : keyGT b c = true) : keyGT a c = true := by
  rw [keyGT_iff] at h1 h2 ⊢
  rcases h1 with h1 | ⟨h1e, h1d⟩ <;> rcases h2 with h2 | ⟨h2e, h2d⟩
  · exact Or.inl (h2.trans h1)
  · exact Or.inl (h2e ▸ h1)
  · exact Or.inl (h1e ▸ h2)
  · exact Or.inr ⟨h1e.trans h2e, h1d.trans h2d⟩

theorem keyGT_of_gt_of_not_gt {a c k : ℚ × ℚ} (h1 : keyGT a k = true)
    (h2 : keyGT c k = false) : keyGT a c = true := by
  rw [keyGT_iff] at h1 ⊢
  rw [← Bool.not_eq_true, keyGT_iff] at h2
  push_neg at h2
  obtain ⟨hlt, himp⟩ := h2
  rcases h1 with h1 | ⟨h1e, h1d⟩
  · exact Or.inl (lt_of_le_of_lt hlt h1)
  · rcases hlt.lt_or_eq with hc | hc
    · exact Or.inl (by rw [h1e]; exact hc)
    · exact Or.inr ⟨h1e.trans hc.symm, h1d.trans_le (himp hc)⟩

theorem scanCands_go :
    ∀ (l : List (Entity × ℚ × ℚ)) (k : ℚ × ℚ) (t : Entity),
    (∃ c, IsFirstMax l c ∧ keyGT (candKey c) k = true ∧
      scanCands l (some k) (some t) = some c.1) ∨
    ((∀ c ∈ l, keyGT (candKey c) k = false) ∧
      scanCands l (some k) (some t) = some t) := by
  intro l
  induction l with
  | nil => intro k t; right; exact ⟨by simp, rfl⟩
  | cons c0 rest ih =>
    intro k t
    obtain ⟨e, o, d⟩ := c0
    by_cases hk : keyGT (o, d) k = true
    · have hstep : scanCands ((e, o, d) :: rest) (some k) (some t) =
          scanCands rest (some (o, d)) (some e) := by
        simp only [scanCands, keyGTOpt, hk, if_true]
      rcases ih (o, d) e with ⟨c2, ⟨l1, l2, hsplit, hpre, hpost⟩, hgt, heq⟩ |
        ⟨hall, heq⟩
      · left
        refine ⟨c2, ⟨(e, o, d) :: l1, l2, by rw [hsplit, List.cons_append], ?_, hpost⟩,
          keyGT_trans hgt hk, by rw [hstep]; exact heq⟩
        intro c1 hc1
        rcases List.mem_cons.mp hc1 with rfl | hc1
        · exact hgt
        · exact hpre c1 hc1
      · left
        exact ⟨(e, o, d), ⟨[], rest, rfl, by simp, hall⟩, hk, by rw [hstep]; exact heq⟩
    · have hk' : keyGT (o, d) k = false := by
        rw [← Bool.not_eq_true]; exact hk
      have hstep : scanCands ((e, o, d) :: rest) (some k) (some t) =
          scanCands rest (some k) (some t) := by
        simp only [scanCands, keyGTOpt, hk', Bool.false_eq_true, if_false]
      rcases ih k t with ⟨c2, ⟨l1, l2, hsplit, hpre, hpost⟩, hgt, heq⟩ |
        ⟨hall, heq⟩
      · left
        refine ⟨c2, ⟨(e, o, d) :: l1, l2, by rw [hsplit, List.cons_append], ?_, hpost⟩, hgt,
          by rw [hstep]; exact heq⟩
        intro c1 hc1
        rcases List.mem_cons.mp hc1 with rfl | hc1
        · exact keyGT_of_gt_of_not_gt hgt hk'
        · exact hpre c1 hc1
      · right
        refine ⟨?_, by rw [hstep]; exact heq⟩
        intro c hc
        rcases List.mem_cons.mp hc with rfl | hc
        · exact hk'
        · exact hall c hc

theorem scanCands_spec (l : List (Entity × ℚ × ℚ)) (hne : l ≠ []) :
    ∃ c, IsFirstMax l c ∧
      scanCands l Option.none Option.none = some c.1 := by
  match l, hne with
  | (e, o, d) :: rest, _ =>
    have hstep : scanCands ((e, o, d) :: rest) Option.none Option.none =
        scanCands rest (some (o, d)) (some e) := by
      simp only [scanCands, keyGTOpt, if_true]
    rcases scanCands_go rest (o, d) e with ⟨c2, ⟨l1, l2, hsplit, hpre, hpost⟩,
      hgt, heq⟩ | ⟨hall, heq⟩
    · refine ⟨c2, ⟨(e, o, d) :: l1, l2, by rw [hsplit, List.cons_append], ?_, hpost⟩,
        by rw [hstep]; exact heq⟩
      intro c1 hc1
      rcases List.mem_cons.mp hc1 with rfl | hc1
      · exact hgt
      · exact hpre c1 hc1
    · exact ⟨(e, o, d), ⟨[], rest, rfl, by simp, hall⟩, by rw [hstep]; exact heq⟩

/-- Target selection with no locked-in pressed entity and acquisition
allowed returns the first maximal flattened candidate. -/
theorem selectTarget_firstMax (batches : List HitBatch)
    (hne : flattenCands batches ≠ []) :
    ∃ c, IsFirstMax (flattenCands batches) c ∧
      selectTarget Option.none true batches = some c.1 := by
  have := scanBatches_free batches Option.none Option.none
  rw [selectTarget, this]
  exact scanCands_spec (flattenCands batches) hne

/-! Helper lemmas about state resolution and the piped systems. -/

theorem resolveTarget_total (cancel_hover : Bool)
    (filters : Entity → Option (List MouseButton)) (pressed : Bool)
    (target : Option Entity) (m : PickingStateMachine)
    (h : pressed = true → m.press.isSome = true) :
    (resolveTarget cancel_hover filters pressed target m).isSome = true := by
  cases target with
  | none =>
    simp only [resolveTarget]
    split
    · split <;> simp
    · simp
  | some entity =>
    simp only [resolveTarget]
    split
    · split
      · split <;> simp
      · simp
    · split
      · simp
      · rename_i hnp
        have hpressed : pressed = true := by simpa using hnp
        split
        · cases hp : m.press with
          | none =>
            have hs := h hpressed
            rw [hp] at hs
            simp at hs
          | some ps =>
            split
            · simp_all
            · split <;> simp
        · simp

theorem resolveTarget_shape (cancel_hover : Bool)
    (filters : Entity → Option (List MouseButton)) (pressed : Bool)
    (target : Option Entity) (m m' : PickingStateMachine)
    (h : resolveTarget cancel_hover filters pressed target m = some m') :
    ∃ c, m' = { m with current := c } := by
  cases target with
  | none =>
    simp only [resolveTarget] at h
    split at h
    · split at h
      · exact ⟨m.current, by injection h with h; rw [← h]⟩
      · exact ⟨.none, by injection h with h; rw [← h]⟩
    · exact ⟨.none, by injection h with h; rw [← h]⟩
  | some entity =>
    simp only [resolveTarget] at h
    split at h
    · split at h
      · split at h
        · exact ⟨.hover entity, by injection h with h; rw [← h]⟩
        · exact ⟨.none, by injection h with h; rw [← h]⟩
      · exact ⟨.none, by injection h with h; rw [← h]⟩
    · split at h
      · exact ⟨.hover entity, by injection h with h; rw [← h]⟩
      · split at h
        · split at h
          · exact Option.noConfusion h
          · split at h
            · exact ⟨.pressed entity, by injection h with h; rw [← h]⟩
            · exact ⟨.hover entity, by injection h with h; rw [← h]⟩
        · exact ⟨.pressed entity, by injection h with h; rw [← h]⟩

theorem queue_transitions_press (m : PickingStateMachine) (now : ℚ) :
    (m.queue_transitions now).press = m.press := rfl

theorem queue_transitions_current (m : PickingStateMachine) (now : ℚ) :
    (m.queue_transitions now).current = m.current := rfl

theorem queue_transitions_previous (m : PickingStateMachine) (now : ℚ) :
    (m.queue_transitions now).previous = m.previous := rfl

theorem queue_transitions_flag (m : PickingStateMachine) (now : ℚ) :
    (m.queue_transitions now).is_post_cancellation_state =
      m.is_post_cancellation_state := rfl

theorem picking_state_machine_system_eq (cancel_hover : Bool)
    (filters : Entity → Option (List MouseButton)) (pressed : Bool) (now : ℚ)
    (batches : List HitBatch) (m m2 : PickingStateMachine)
    (hres : resolveTarget cancel_hover filters pressed
      (selectTarget (currentPressedEntity m.current) m.can_acquire_new_target
        batches) { m with previous := m.current } = some m2) :
    picking_state_machine_system cancel_hover filters pressed now batches m =
      some (if pressed then m2.queue_transitions now
        else { m2.queue_transitions now with press := Option.none }) := by
  simp only [picking_state_machine_system, hres]

/-! Claim theorems. -/

/-- C1: the spec states that when the global state is `Pressed{e}`,
`get_state(e)` returns `EntityPickingState::Pressed`; the code instead
returns `EntityPickingState::Hover` in that arm (lib.rs line 162), and the
`Pressed` variant of `EntityPickingState` is never produced. -/
theorem C1_get_state_pressed_returns_hover (m : PickingStateMachine)
    (e : Entity) (h : m.current = .pressed e) :
    m.get_state e = .hover ∧ m.get_state e ≠ .pressed := by
  unfold PickingStateMachine.get_state
  rw [h]
  simp

/-- Witness for C1 at a concrete pressed machine. -/
theorem C1_get_state_pressed_returns_hover_witness :
    (⟨.none, .pressed 1, (0, 0), Option.none, false, false, false, .none⟩ :
      PickingStateMachine).current = .pressed 1 ∧
    ((⟨.none, .pressed 1, (0, 0), Option.none, false, false, false, .none⟩ :
      PickingStateMachine).get_state 1 = .hover ∧
     (⟨.none, .pressed 1, (0, 0), Option.none, false, false, false, .none⟩ :
      PickingStateMachine).get_state 1 ≠ .pressed) :=
  ⟨rfl, C1_get_state_pressed_returns_hover _ 1 rfl⟩

/-- C2: the claim states the press record keeps the position and time from
the frame tracking started while the same button stays held. In the code
(lib.rs lines 257-263) the record is overwritten every frame with the
current pointer and current time: frame 0 presses left at pointer (0,0),
time 0 and records ⟨left, (0,0), 0⟩; on frame 1 the same button is still
held (no cancellation, no button change), the pointer has moved to (5,5),
and the record becomes ⟨left, (5,5), 1⟩. -/
theorem C2_press_record_overwritten_each_frame :
    (picking_button_system [MouseButton.left] (fun b => b == .left)
        (fun b => b == .left) 0
        ⟨.none, .none, (0, 0), Option.none, false, false, false, .none⟩).1.press
      = some ⟨.left, (0, 0), 0⟩ ∧
    (picking_button_system [MouseButton.left] (fun b => b == .left)
        (fun _ => false) 1
        { (picking_button_system [MouseButton.left] (fun b => b == .left)
            (fun b => b == .left) 0
            ⟨.none, .none, (0, 0), Option.none, false, false, false,
              .none⟩).1 with pointer := (5, 5) }).1.press
      = some ⟨.left, (5, 5), 1⟩ ∧
    (⟨.left, (5, 5), 1⟩ : PressState) ≠ ⟨.left, (0, 0), 0⟩ := by
  refine ⟨by decide, by decide, by decide⟩

/-- C5: once the post-cancellation flag is set, after the button system runs
it is set exactly when some allowed button is still down: it persists while
at least one trackable button is held (also on partial release) and clears
exactly when none is down. -/
theorem C5_post_cancellation_clears_only_all_released
    (allowed : List MouseButton) (isP isJP : MouseButton → Bool) (now : ℚ)
    (m : PickingStateMachine) (h : m.is_post_cancellation_state = true) :
    ((picking_button_system allowed isP isJP now m).1).is_post_cancellation_state
      = allowed.any isP := by
  rcases hscan : buttonScan isP isJP allowed Option.none false with ⟨cb, cancel, jp⟩
  rcases hcount : allowed.countP isP with _ | n
  · have h0 := buttonScan_count_zero isP isJP allowed Option.none false hcount
    rw [hscan] at h0
    injection h0 with hcb h0
    injection h0 with hcancel hjp
    subst hcb hcancel hjp
    have hany : allowed.any isP = false := by
      rw [List.any_eq_false]
      intro x hx
      simpa using List.countP_eq_zero.mp hcount x hx
    rw [hany]
    simp only [picking_button_system, hscan]
    simp [h]
  · have hpos : 0 < allowed.countP isP := by omega
    have hany : allowed.any isP = true := by
      rw [List.any_eq_true]
      obtain ⟨b, hb, hpb⟩ := List.countP_pos_iff.mp hpos
      exact ⟨b, hb, by simpa using hpb⟩
    rw [hany]
    rcases n with _ | n2
    · obtain ⟨b, jp', hbmem, hpb, heq⟩ :=
        buttonScan_count_one isP isJP allowed false hcount
      rw [hscan] at heq
      injection heq with hcb h0
      injection h0 with hcancel hjp
      subst hcb hcancel hjp
      simp only [picking_button_system, hscan]
      simp only [h]
      split
      · rfl
      · split
        · rename_i hclear
          simp at hclear
        · split <;> rfl
    · have h2 : 2 ≤ allowed.countP isP := by omega
      obtain ⟨jp', heq⟩ := buttonScan_count_two isP isJP allowed false h2
      rw [hscan] at heq
      injection heq with hcb h0
      injection h0 with hcancel hjp
      subst hcb hcancel hjp
      simp only [picking_button_system, hscan]
      simp [h]

/-- Witness for C5: flag set, one of two allowed buttons released, the
other still held: the flag stays set. -/
theorem C5_post_cancellation_clears_only_all_released_witness :
    (⟨.none, .none, (0, 0), Option.none, false, false, true, .none⟩ :
      PickingStateMachine).is_post_cancellation_state = true ∧
    ((picking_button_system [MouseButton.left, MouseButton.right]
        (fun b => b == .left) (fun _ => false) 3
        ⟨.none, .none, (0, 0), Option.none, false, false, true,
          .none⟩).1).is_post_cancellation_state =
      [MouseButton.left, MouseButton.right].any (fun b => b == .left) :=
  ⟨rfl, C5_post_cancellation_clears_only_all_released _ _ _ 3 _ rfl⟩

theorem picking_button_system_snd (allowed : List MouseButton)
    (isP isJP : MouseButton → Bool) (now : ℚ) (m : PickingStateMachine) :
    (picking_button_system allowed isP isJP now m).2 =
      (buttonScan isP isJP allowed Option.none false).1.isSome := rfl

theorem buttonScan_isSome_iff (isP isJP : MouseButton → Bool)
    (allowed : List MouseButton) :
    (buttonScan isP isJP allowed Option.none false).1.isSome =
      decide (allowed.countP isP = 1) := by
  rcases hcount : allowed.countP isP with _ | n
  · have h0 := buttonScan_count_zero isP isJP allowed Option.none false hcount
    rw [h0]
    simp
  · rcases n with _ | n2
    · obtain ⟨b, jp', hbmem, hpb, heq⟩ :=
        buttonScan_count_one isP isJP allowed false hcount
      rw [heq]
      simp
    · have h2 : 2 ≤ allowed.countP isP := by omega
      obtain ⟨jp', heq⟩ := buttonScan_count_two isP isJP allowed false h2
      rw [heq]
      simp

theorem picking_button_system_press_isSome (allowed : List MouseButton)
    (isP isJP : MouseButton → Bool) (now : ℚ) (m : PickingStateMachine)
    (h : (picking_button_system allowed isP isJP now m).2 = true) :
    ((picking_button_system allowed isP isJP now m).1).press.isSome = true := by
  rw [picking_button_system_snd] at h
  rcases hscan : buttonScan isP isJP allowed Option.none false with ⟨cb, cancel, jp⟩
  rw [hscan] at h
  simp only at h
  obtain ⟨b, rfl⟩ := Option.isSome_iff_exists.mp h
  simp only [picking_button_system, hscan]
  rfl

/-- C3 (amended): at the end of a whole frame the press record is present
if and only if exactly one entry of the allowed-buttons list is a pressed
button (not "at least one": two simultaneously pressed allowed buttons
leave no record). -/
theorem C3_press_record_iff_exactly_one_down (allowed : List MouseButton)
    (isP isJP : MouseButton → Bool) (cancel_hover : Bool)
    (filters : Entity → Option (List MouseButton)) (now : ℚ)
    (batches : List HitBatch) (m : PickingStateMachine) :
    ∃ m', frameStep allowed isP isJP cancel_hover filters now batches m =
      some m' ∧ m'.press.isSome = decide (allowed.countP isP = 1) := by
  rcases hscan : buttonScan isP isJP allowed Option.none false with ⟨cb, cancel, jp⟩
  have hiff := buttonScan_isSome_iff isP isJP allowed
  rw [hscan] at hiff
  have hsnd := picking_button_system_snd allowed isP isJP now m
  rw [hscan] at hsnd
  rcases hbs : picking_button_system allowed isP isJP now m with ⟨m1, pressed⟩
  rw [hbs] at hsnd
  simp only at hsnd hiff
  have htotal : pressed = true → m1.press.isSome = true := by
    intro hp
    have := picking_button_system_press_isSome allowed isP isJP now m
      (by rw [hbs]; exact hp)
    rw [hbs] at this
    exact this
  have hres := resolveTarget_total cancel_hover filters pressed
    (selectTarget (currentPressedEntity m1.current) m1.can_acquire_new_target
      batches) { m1 with previous := m1.current }
    (fun hp => by simpa using htotal hp)
  obtain ⟨m2, hm2⟩ := Option.isSome_iff_exists.mp hres
  have hpms := picking_state_machine_system_eq cancel_hover filters pressed now
    batches m1 m2 hm2
  obtain ⟨c, hc⟩ := resolveTarget_shape cancel_hover filters pressed _ _ m2 hm2
  refine ⟨if pressed = true then m2.queue_transitions now
    else { m2.queue_transitions now with press := Option.none }, ?_, ?_⟩
  · show frameStep allowed isP isJP cancel_hover filters now batches m = some _
    simp only [frameStep, hbs]
    exact hpms
  · cases hpressed : pressed with
    | false =>
      rw [← hiff, ← hsnd, hpressed]
      simp
    | true =>
      rw [← hiff, ← hsnd, hpressed]
      simp only [if_true, queue_transitions_press]
      rw [hc]
      exact htotal hpressed

/-- Counterexample to C3 as stated: with both allowed buttons (left and
right) down this frame, the end-of-frame press record is absent although
at least one allowed button is down. -/
theorem C3_counterexample_two_buttons_down :
    Option.map (fun m' => m'.press)
      (frameStep [MouseButton.left, MouseButton.right] (fun _ => true)
        (fun _ => true) false (fun _ => Option.none) 0 []
        ⟨.none, .none, (0, 0), Option.none, false, false, false, .none⟩) =
      some Option.none ∧
    [MouseButton.left, MouseButton.right].any (fun _ => true) = true :=
  ⟨by decide, by decide⟩

/-- Witness for C3 (amended) with one allowed button held. -/
theorem C3_press_record_iff_exactly_one_down_witness :
    ∃ m', frameStep [MouseButton.left] (fun b => b == .left) (fun _ => false)
      false (fun _ => Option.none) 2 []
      ⟨.none, .none, (0, 0), Option.none, false, false, false, .none⟩ =
      some m' ∧ m'.press.isSome =
        decide ([MouseButton.left].countP (fun b => b == .left) = 1) :=
  C3_press_record_iff_exactly_one_down [MouseButton.left] (fun b => b == .left)
    (fun _ => false) false (fun _ => Option.none) 2 []
    ⟨.none, .none, (0, 0), Option.none, false, false, false, .none⟩

theorem resolveTarget_flag_pressed (cancel_hover : Bool)
    (filters : Entity → Option (List MouseButton)) (pressed : Bool)
    (target : Option Entity) (m : PickingStateMachine) (e : Entity)
    (hflag : m.is_post_cancellation_state = true)
    (hcur : m.current = .pressed e)
    (htgt : target = Option.none ∨ target = some e)
    (hpressed : pressed = false) :
    resolveTarget cancel_hover filters pressed target m =
      some { m with current := .none } := by
  rcases htgt with rfl | rfl
  · simp [resolveTarget, hpressed]
  · simp [resolveTarget, hflag, hcur]

theorem queue_transitions_cancelled (m : PickingStateMachine) (now : ℚ)
    (e : Entity) (hprev : m.previous = .pressed e) (hcur : m.current = .none)
    (hflag : m.is_post_cancellation_state = true) :
    ∃ b d t, (m.queue_transitions now).transitions = .one (.cancelled e b d t) := by
  cases hp : m.press with
  | none =>
    refine ⟨.left, (0, 0), 0, ?_⟩
    simp [PickingStateMachine.queue_transitions, hp, hprev, hcur, hflag]
  | some ps =>
    refine ⟨ps.button, ps.position, now - ps.time, ?_⟩
    simp [PickingStateMachine.queue_transitions, hp, hprev, hcur, hflag]

theorem pms_cancel_path (cancel_hover : Bool)
    (filters : Entity → Option (List MouseButton)) (now : ℚ)
    (batches : List HitBatch) (m : PickingStateMachine) (e : Entity)
    (hflag : m.is_post_cancellation_state = true)
    (hcur : m.current = .pressed e) :
    picking_state_machine_system cancel_hover filters false now batches m =
      some { ({ m with
        previous := m.current
        current := .none } : PickingStateMachine).queue_transitions now with
        press := Option.none } := by
  have hcan : m.can_acquire_new_target = false := by
    simp [PickingStateMachine.can_acquire_new_target, hflag]
  have hcpe : currentPressedEntity m.current = some e := by rw [hcur]; rfl
  have htgt := selectTarget_no_can (currentPressedEntity m.current) batches
  rw [hcpe] at htgt
  have hres : resolveTarget cancel_hover filters false
      (selectTarget (currentPressedEntity m.current)
        m.can_acquire_new_target batches)
      { m with previous := m.current } =
      some { m with
        previous := m.current
        current := .none } := by
    rw [hcan, hcpe]
    exact resolveTarget_flag_pressed cancel_hover filters false _ _ e hflag
      hcur htgt rfl
  have hms := picking_state_machine_system_eq cancel_hover filters false now
    batches m _ hres
  rw [hms]
  rfl

/-- C4: with two or more allowed buttons down in one frame (two or more
entries of the allowed list are pressed), the frame enters post-cancellation
mode, arbitration selects no candidate button, and when the previous
committed state was `Pressed{e}` the frame's transitions are a single
`Cancelled` event for `e`, with no `Released` event. -/
theorem C4_simultaneous_buttons_cancel (allowed : List MouseButton)
    (isP isJP : MouseButton → Bool) (cancel_hover : Bool)
    (filters : Entity → Option (List MouseButton)) (now : ℚ)
    (batches : List HitBatch) (m : PickingStateMachine) (e : Entity)
    (hcount : 2 ≤ allowed.countP isP) (hcur : m.current = .pressed e) :
    (buttonScan isP isJP allowed Option.none false).1 = Option.none ∧
    ∃ m', frameStep allowed isP isJP cancel_hover filters now batches m =
      some m' ∧
      m'.is_post_cancellation_state = true ∧
      (∃ b d t, m'.transitions = .one (.cancelled e b d t)) ∧
      ∀ tr ∈ m'.transitions.toList,
        ∀ e' b' d' t' o', tr ≠ .released e' b' d' t' o' := by
  obtain ⟨jp', hscan⟩ := buttonScan_count_two isP isJP allowed false hcount
  refine ⟨by rw [hscan], ?_⟩
  have hbs : picking_button_system allowed isP isJP now m =
      ({ m with
        current_btn_just_pressed := false
        is_post_cancellation_state := true }, false) := by
    simp [picking_button_system, hscan]
  have hpms := pms_cancel_path cancel_hover filters now batches
    { m with
      current_btn_just_pressed := false
      is_post_cancellation_state := true } e rfl hcur
  obtain ⟨b, d, t, hts⟩ := queue_transitions_cancelled
    { m with
      current_btn_just_pressed := false
      is_post_cancellation_state := true
      previous := m.current
      current := .none } now e (by rw [hcur]) rfl rfl
  have hts2 : ({ ({ m with
      current_btn_just_pressed := false
      is_post_cancellation_state := true
      previous := m.current
      current := .none } : PickingStateMachine).queue_transitions now with
      press := Option.none } : PickingStateMachine).transitions =
      .one (.cancelled e b d t) := hts
  refine ⟨{ ({ m with
      current_btn_just_pressed := false
      is_post_cancellation_state := true
      previous := m.current
      current := .none } : PickingStateMachine).queue_transitions now with
      press := Option.none }, ?_, ?_, ?_, ?_⟩
  · show frameStep allowed isP isJP cancel_hover filters now batches m = some _
    simp only [frameStep, hbs]
    exact hpms
  · rfl
  · exact ⟨b, d, t, hts2⟩
  · intro tr htr e' b' d' t' o'
    rw [hts2] at htr
    simp only [PickingTransitions.toList, List.mem_singleton] at htr
    subst htr
    simp

/-- Witness for C4: left and right both down while entity 7 is pressed. -/
theorem C4_simultaneous_buttons_cancel_witness :
    2 ≤ [MouseButton.left, MouseButton.right].countP (fun _ => true) ∧
    (⟨.pressed 7, .pressed 7, (0, 0), some ⟨.left, (0, 0), 0⟩, false, false,
      false, .none⟩ : PickingStateMachine).current = .pressed 7 ∧
    ((buttonScan (fun _ => true) (fun _ => false)
        [MouseButton.left, MouseButton.right] Option.none false).1 =
        Option.none ∧
      ∃ m', frameStep [MouseButton.left, MouseButton.right] (fun _ => true)
          (fun _ => false) false (fun _ => Option.none) 2 [⟨0, [(7, 0)]⟩]
          ⟨.pressed 7, .pressed 7, (0, 0), some ⟨.left, (0, 0), 0⟩, false,
            false, false, .none⟩ = some m' ∧
        m'.is_post_cancellation_state = true ∧
        (∃ b d t, m'.transitions = .one (.cancelled 7 b d t)) ∧
        ∀ tr ∈ m'.transitions.toList,
          ∀ e' b' d' t' o', tr ≠ .released e' b' d' t' o') :=
  ⟨by decide, rfl,
    C4_simultaneous_buttons_cancel [MouseButton.left, MouseButton.right]
      (fun _ => true) (fun _ => false) false (fun _ => Option.none) 2
      [⟨0, [(7, 0)]⟩]
      ⟨.pressed 7, .pressed 7, (0, 0), some ⟨.left, (0, 0), 0⟩, false, false,
        false, .none⟩ 7 (by decide) rfl⟩

/-- C6 (amended): while `Pressed{e}` with no cancellation, the held tracked
button and `e` among the hit candidates, `e` is re-selected as the target
unconditionally — no other candidate in any batch, whatever its order or
depth, can preempt it — and, provided `e`'s button filter (if any) permits
the tracked button, the state stays `Pressed{e}`. -/
theorem C6_pressed_target_locked_in (cancel_hover : Bool)
    (filters : Entity → Option (List MouseButton)) (now : ℚ)
    (batches : List HitBatch) (m : PickingStateMachine) (e : Entity)
    (ps : PressState)
    (hcur : m.current = .pressed e)
    (hflag : m.is_post_cancellation_state = false)
    (hpress : m.press = some ps)
    (hhit : ∃ b ∈ batches, ∃ d, (e, d) ∈ b.picks)
    (hfilter : filters e = Option.none ∨
      ∃ lst, filters e = some lst ∧ lst.contains ps.button = true) :
    selectTarget (currentPressedEntity m.current) m.can_acquire_new_target
      batches = some e ∧
    ∃ m', picking_state_machine_system cancel_hover filters true now batches m
      = some m' ∧ m'.current = .pressed e := by
  have hcpe : currentPressedEntity m.current = some e := by rw [hcur]; rfl
  have htgt : selectTarget (currentPressedEntity m.current)
      m.can_acquire_new_target batches = some e := by
    rw [hcpe]
    exact selectTarget_locked e _ batches hhit
  refine ⟨htgt, ?_⟩
  have hres : resolveTarget cancel_hover filters true (some e)
      { m with previous := m.current } =
      some { m with
        previous := m.current
        current := .pressed e } := by
    rcases hfilter with hf | ⟨lst, hf, hcont⟩
    · simp [resolveTarget, hflag, hf]
    · have hmem : ps.button ∈ lst := by simpa using hcont
      simp [resolveTarget, hflag, hf, hpress, hmem]
  rw [← htgt] at hres
  have hms := picking_state_machine_system_eq cancel_hover filters true now
    batches m _ hres
  rw [hms]
  exact ⟨_, rfl, rfl⟩

/-- Counterexample to C6 as stated: entity 1 is pressed, still hit, the
tracked left button still held with no cancellation, but entity 1 carries an
empty button filter: the new state is `Hover{1}`, not `Pressed{1}`. -/
theorem C6_counterexample_empty_filter :
    Option.map (fun m' => m'.current)
      (frameStep [MouseButton.left] (fun b => b == .left) (fun _ => false)
        false (fun e => if e = 1 then some [] else Option.none) 1
        [⟨0, [(1, 0)]⟩]
        ⟨.pressed 1, .pressed 1, (0, 0), some ⟨.left, (0, 0), 0⟩, false,
          false, false, .none⟩) = some (.hover 1) ∧
    GlobalPickingState.hover 1 ≠ .pressed 1 :=
  ⟨by decide, by decide⟩

/-- Witness for C6 (amended): entity 1 pressed, a competitor candidate
earlier in its batch and another in a higher-order batch, no filter. -/
theorem C6_pressed_target_locked_in_witness :
    (⟨.pressed 1, .pressed 1, (0, 0), some ⟨.left, (0, 0), 0⟩, false, false,
      false, .none⟩ : PickingStateMachine).current = .pressed 1 ∧
    (selectTarget (currentPressedEntity
        (⟨.pressed 1, .pressed 1, (0, 0), some ⟨.left, (0, 0), 0⟩, false,
          false, false, .none⟩ : PickingStateMachine).current)
        (⟨.pressed 1, .pressed 1, (0, 0), some ⟨.left, (0, 0), 0⟩, false,
          false, false, .none⟩ : PickingStateMachine).can_acquire_new_target
        [⟨0, [(2, 0), (1, 5)]⟩, ⟨9, [(3, 0)]⟩] = some 1 ∧
      ∃ m', picking_state_machine_system false (fun _ => Option.none) true 4
        [⟨0, [(2, 0), (1, 5)]⟩, ⟨9, [(3, 0)]⟩]
        ⟨.pressed 1, .pressed 1, (0, 0), some ⟨.left, (0, 0), 0⟩, false,
          false, false, .none⟩ = some m' ∧ m'.current = .pressed 1) :=
  ⟨rfl, C6_pressed_target_locked_in false (fun _ => Option.none) 4
    [⟨0, [(2, 0), (1, 5)]⟩, ⟨9, [(3, 0)]⟩]
    ⟨.pressed 1, .pressed 1, (0, 0), some ⟨.left, (0, 0), 0⟩, false, false,
      false, .none⟩ 1 ⟨.left, (0, 0), 0⟩ rfl rfl rfl
    ⟨⟨0, [(2, 0), (1, 5)]⟩, by decide, 5, by decide⟩ (Or.inl rfl)⟩

/-- C10: an entity carrying a present-but-empty button filter is selected as
the target with a button held and no cancellation: the state becomes
`Hover{e}`, never `Pressed{e}` (the empty filter suppresses presses by every
button), while the complete absence of the filter component yields
`Pressed{e}`. -/
theorem C10_empty_filter_suppresses_press (cancel_hover : Bool)
    (filters : Entity → Option (List MouseButton)) (now : ℚ)
    (batches : List HitBatch) (m : PickingStateMachine) (e : Entity)
    (ps : PressState)
    (hflag : m.is_post_cancellation_state = false)
    (hpress : m.press = some ps)
    (htgt : selectTarget (currentPressedEntity m.current)
      m.can_acquire_new_target batches = some e) :
    (filters e = some [] →
      ∃ m', picking_state_machine_system cancel_hover filters true now batches
        m = some m' ∧ m'.current = .hover e ∧ m'.current ≠ .pressed e) ∧
    (filters e = Option.none →
      ∃ m', picking_state_machine_system cancel_hover filters true now batches
        m = some m' ∧ m'.current = .pressed e) := by
  constructor
  · intro hf
    have hres : resolveTarget cancel_hover filters true (some e)
        { m with previous := m.current } =
        some { m with
          previous := m.current
          current := .hover e } := by
      simp [resolveTarget, hflag, hf, hpress]
    rw [← htgt] at hres
    have hms := picking_state_machine_system_eq cancel_hover filters true now
      batches m _ hres
    rw [hms]
    exact ⟨_, rfl, rfl, by simp [queue_transitions_current]⟩
  · intro hf
    have hres : resolveTarget cancel_hover filters true (some e)
        { m with previous := m.current } =
        some { m with
          previous := m.current
          current := .pressed e } := by
      simp [resolveTarget, hflag, hf]
    rw [← htgt] at hres
    have hms := picking_state_machine_system_eq cancel_hover filters true now
      batches m _ hres
    rw [hms]
    exact ⟨_, rfl, rfl⟩

/-- Witness for C10: entity 3 hovered then pressed with an empty filter
versus no filter. -/
theorem C10_empty_filter_suppresses_press_witness :
    (⟨.hover 3, .hover 3, (0, 0), some ⟨.right, (0, 0), 0⟩, true, false,
      false, .none⟩ : PickingStateMachine).press = some ⟨.right, (0, 0), 0⟩ ∧
    ((fun x => if x = 3 then some ([] : List MouseButton) else Option.none) 3
      = some [] →
      ∃ m', picking_state_machine_system false
        (fun x => if x = 3 then some ([] : List MouseButton) else Option.none)
        true 1 [⟨0, [(3, 0)]⟩]
        ⟨.hover 3, .hover 3, (0, 0), some ⟨.right, (0, 0), 0⟩, true, false,
          false, .none⟩ = some m' ∧ m'.current = .hover 3 ∧
        m'.current ≠ .pressed 3) ∧
    ((fun x => if x = 3 then some ([] : List MouseButton) else Option.none) 3
      = Option.none →
      ∃ m', picking_state_machine_system false
        (fun x => if x = 3 then some ([] : List MouseButton) else Option.none)
        true 1 [⟨0, [(3, 0)]⟩]
        ⟨.hover 3, .hover 3, (0, 0), some ⟨.right, (0, 0), 0⟩, true, false,
          false, .none⟩ = some m' ∧ m'.current = .pressed 3) :=
  ⟨rfl,
    (C10_empty_filter_suppresses_press false
      (fun x => if x = 3 then some ([] : List MouseButton) else Option.none) 1
      [⟨0, [(3, 0)]⟩]
      ⟨.hover 3, .hover 3, (0, 0), some ⟨.right, (0, 0), 0⟩, true, false,
        false, .none⟩ 3 ⟨.right, (0, 0), 0⟩ rfl rfl (by decide)).1,
    (C10_empty_filter_suppresses_press false
      (fun x => if x = 3 then some ([] : List MouseButton) else Option.none) 1
      [⟨0, [(3, 0)]⟩]
      ⟨.hover 3, .hover 3, (0, 0), some ⟨.right, (0, 0), 0⟩, true, false,
        false, .none⟩ 3 ⟨.right, (0, 0), 0⟩ rfl rfl (by decide)).2⟩

/-- C7: with acquisition permitted (no press record, no post-cancellation)
and no pressed entity locked in, the selected target is the first maximal
candidate of the flattened batches under the (order, negated depth) key; in
particular batches `[{order 1, [(A=10, depth 2)]}, {order 2, [(B=20,
depth 5)]}]` with no button down and previous state `None` give target B,
state `Hover{B}` and transitions `[HoverEnter(B)]`. -/
theorem C7_first_maximal_candidate_selected (m : PickingStateMachine)
    (batches : List HitBatch)
    (hacq : m.can_acquire_new_target = true)
    (hlock : currentPressedEntity m.current = Option.none)
    (hne : flattenCands batches ≠ []) :
    (∃ c, IsFirstMax (flattenCands batches) c ∧
      selectTarget (currentPressedEntity m.current) m.can_acquire_new_target
        batches = some c.1) ∧
    (frameStep [MouseButton.left] (fun _ => false) (fun _ => false) false
        (fun _ => Option.none) 0 [⟨1, [(10, 2)]⟩, ⟨2, [(20, 5)]⟩]
        ⟨.none, .none, (0, 0), Option.none, false, false, false, .none⟩ =
      some ⟨.none, .hover 20, (0, 0), Option.none, false, false, false,
        .one (.hoverEnter 20)⟩) := by
  constructor
  · rw [hlock, hacq]
    exact selectTarget_firstMax batches hne
  · decide

/-- Witness for C7 at the spec's concrete scenario. -/
theorem C7_first_maximal_candidate_selected_witness :
    (⟨.none, .none, (0, 0), Option.none, false, false, false, .none⟩ :
      PickingStateMachine).can_acquire_new_target = true ∧
    flattenCands [⟨1, [(10, 2)]⟩, ⟨2, [(20, 5)]⟩] ≠ [] ∧
    ((∃ c, IsFirstMax (flattenCands [⟨1, [(10, 2)]⟩, ⟨2, [(20, 5)]⟩]) c ∧
      selectTarget (currentPressedEntity
        (⟨.none, .none, (0, 0), Option.none, false, false, false, .none⟩ :
          PickingStateMachine).current)
        (⟨.none, .none, (0, 0), Option.none, false, false, false, .none⟩ :
          PickingStateMachine).can_acquire_new_target
        [⟨1, [(10, 2)]⟩, ⟨2, [(20, 5)]⟩] = some c.1) ∧
    (frameStep [MouseButton.left] (fun _ => false) (fun _ => false) false
        (fun _ => Option.none) 0 [⟨1, [(10, 2)]⟩, ⟨2, [(20, 5)]⟩]
        ⟨.none, .none, (0, 0), Option.none, false, false, false, .none⟩ =
      some ⟨.none, .hover 20, (0, 0), Option.none, false, false, false,
        .one (.hoverEnter 20)⟩)) :=
  ⟨rfl, by decide,
    C7_first_maximal_candidate_selected
      ⟨.none, .none, (0, 0), Option.none, false, false, false, .none⟩
      [⟨1, [(10, 2)]⟩, ⟨2, [(20, 5)]⟩] rfl rfl (by decide)⟩

/-- C8 (amended): the frame's transition list is a pure function of the
previous state, the current state, the post-cancellation flag, the
just-pressed flag, *the press record* and the frame time: two machines
agreeing on those produce identical transitions whatever their other
fields. (The four values alone do not determine the Released/Cancelled
payloads, which are read from the press record and the clock.) -/
theorem C8_transitions_pure_function (s1 s2 : PickingStateMachine) (now : ℚ)
    (h1 : s1.previous = s2.previous) (h2 : s1.current = s2.current)
    (h3 : s1.is_post_cancellation_state = s2.is_post_cancellation_state)
    (h4 : s1.current_btn_just_pressed = s2.current_btn_just_pressed)
    (h5 : s1.press = s2.press) :
    (s1.queue_transitions now).transitions =
      (s2.queue_transitions now).transitions := by
  unfold PickingStateMachine.queue_transitions
  rw [h1, h2, h3, h4, h5]

/-- Counterexample to C8 as stated: two machines agreeing on all four of
(previous, current, post-cancellation flag, just-pressed flag) but holding
different press records emit different transitions (Released with button
Left versus Right). -/
theorem C8_counterexample_payload_differs :
    (⟨.pressed 1, .none, (0, 0), some ⟨.left, (0, 0), 0⟩, false, false, false,
      .none⟩ : PickingStateMachine).previous =
    (⟨.pressed 1, .none, (0, 0), some ⟨.right, (0, 0), 0⟩, false, false,
      false, .none⟩ : PickingStateMachine).previous ∧
    (⟨.pressed 1, .none, (0, 0), some ⟨.left, (0, 0), 0⟩, false, false, false,
      .none⟩ : PickingStateMachine).current =
    (⟨.pressed 1, .none, (0, 0), some ⟨.right, (0, 0), 0⟩, false, false,
      false, .none⟩ : PickingStateMachine).current ∧
    (⟨.pressed 1, .none, (0, 0), some ⟨.left, (0, 0), 0⟩, false, false, false,
      .none⟩ : PickingStateMachine).is_post_cancellation_state =
    (⟨.pressed 1, .none, (0, 0), some ⟨.right, (0, 0), 0⟩, false, false,
      false, .none⟩ : PickingStateMachine).is_post_cancellation_state ∧
    (⟨.pressed 1, .none, (0, 0), some ⟨.left, (0, 0), 0⟩, false, false, false,
      .none⟩ : PickingStateMachine).current_btn_just_pressed =
    (⟨.pressed 1, .none, (0, 0), some ⟨.right, (0, 0), 0⟩, false, false,
      false, .none⟩ : PickingStateMachine).current_btn_just_pressed ∧
    ((⟨.pressed 1, .none, (0, 0), some ⟨.left, (0, 0), 0⟩, false, false,
        false, .none⟩ : PickingStateMachine).queue_transitions 1).transitions ≠
    ((⟨.pressed 1, .none, (0, 0), some ⟨.right, (0, 0), 0⟩, false, false,
        false, .none⟩ : PickingStateMachine).queue_transitions 1).transitions :=
  ⟨rfl, rfl, rfl, rfl, by decide⟩

/-- Witness for C8 (amended): two machines differing only in pointer and
out-of-bounds flag emit the same transitions. -/
theorem C8_transitions_pure_function_witness :
    (⟨.none, .hover 5, (1, 1), Option.none, false, false, false, .none⟩ :
      PickingStateMachine).press =
    (⟨.none, .hover 5, (2, 2), Option.none, false, true, false, .none⟩ :
      PickingStateMachine).press ∧
    ((⟨.none, .hover 5, (1, 1), Option.none, false, false, false, .none⟩ :
      PickingStateMachine).queue_transitions 0).transitions =
    ((⟨.none, .hover 5, (2, 2), Option.none, false, true, false, .none⟩ :
      PickingStateMachine).queue_transitions 0).transitions :=
  ⟨rfl, C8_transitions_pure_function _ _ 0 rfl rfl rfl rfl rfl⟩

theorem ancestorHits2_iff (parent : Entity → Option Entity) (t1 t2 : Entity) :
    ∀ (fuel : Nat) (e : Entity),
    ancestorHits2 parent t1 t2 fuel e = true ↔
      t1 ∈ ancestors parent fuel e ∨ t2 ∈ ancestors parent fuel e := by
  intro fuel
  induction fuel with
  | zero => intro e; simp [ancestorHits2, ancestors]
  | succ f ih =>
    intro e
    cases hp : parent e with
    | none => simp [ancestorHits2, ancestors, hp]
    | some p =>
      simp only [ancestorHits2, ancestors, hp]
      by_cases h1 : p = t1
      · simp [h1, List.mem_cons]
      · by_cases h2 : p = t2
        · simp [h2, List.mem_cons]
        · have hcond : (p = t1 || p = t2) = false := by
            simp [h1, h2]
          simp only [hcond, Bool.false_eq_true, if_false, List.mem_cons, ih p]
          constructor
          · rintro (ha | hb)
            · exact Or.inl (Or.inr ha)
            · exact Or.inr (Or.inr hb)
          · rintro ((he | ha) | (he | hb))
            · exact absurd he.symm h1
            · exact Or.inl ha
            · exact absurd he.symm h2
            · exact Or.inr hb

/-- A sample hierarchy for the `PropagateUp` scenario: entity 10 is the
root, its children are P = 0 and U = 5; P's children are the active
entity 1 and C = 2; D = 3 is a child of C; V = 6 is a child of U. -/
def demoParent : Entity → Option Entity := fun e =>
  if e = 1 then some 0 else if e = 2 then some 0 else if e = 3 then some 2
  else if e = 0 then some 10 else if e = 5 then some 10 else if e = 6 then some 5
  else Option.none

/-- The active entity 1 carries `PropagateUp(1)`. -/
def demoProp : Entity → Option PickingPropagation := fun e =>
  if e = 1 then some (.propagateUp 1) else Option.none

/-- C9: under `PropagateUp(n)` on the active entity, with `root` its n-th
ancestor (stopping early on a short chain), `entity_equivalent(active, to)`
holds iff `to` equals `active` or `to`'s strict ancestor chain (within the
walk's fuel) contains `active` or `root`; in the sample tree with
`PropagateUp(1)` on entity 1 whose parent is P = 0, every strict descendant
of P (entities 2 and 3) and the active entity itself are equivalent, while
the unrelated sibling subtree (entities 5 and 6) is not. -/
theorem C9_propagate_up_equivalence (fuel : Nat)
    (parent : Entity → Option Entity)
    (prop : Entity → Option PickingPropagation) (active dest : Entity)
    (n : Nat) (h : prop active = some (.propagateUp n)) :
    (entity_equivalent fuel parent prop active dest = true ↔
      dest = active ∨ active ∈ ancestors parent fuel dest ∨
        nthAncestor parent n active ∈ ancestors parent fuel dest) ∧
    (entity_equivalent 5 demoParent demoProp 1 1 = true ∧
     entity_equivalent 5 demoParent demoProp 1 2 = true ∧
     entity_equivalent 5 demoParent demoProp 1 3 = true ∧
     entity_equivalent 5 demoParent demoProp 1 5 = false ∧
     entity_equivalent 5 demoParent demoProp 1 6 = false) := by
  constructor
  · unfold entity_equivalent
    by_cases had : active = dest
    · simp [had]
    · rw [if_neg had, h]
      rw [ancestorHits2_iff]
      constructor
      · intro hh
        exact Or.inr hh
      · rintro (hda | hh)
        · exact absurd hda.symm had
        · exact hh
  · exact ⟨by decide, by decide, by decide, by decide, by decide⟩

/-- Witness for C9: the sample tree, querying the grandchild D = 3 of P. -/
theorem C9_propagate_up_equivalence_witness :
    demoProp 1 = some (.propagateUp 1) ∧
    ((entity_equivalent 5 demoParent demoProp 1 3 = true ↔
      3 = 1 ∨ 1 ∈ ancestors demoParent 5 3 ∨
        nthAncestor demoParent 1 1 ∈ ancestors demoParent 5 3) ∧
    (entity_equivalent 5 demoParent demoProp 1 1 = true ∧
     entity_equivalent 5 demoParent demoProp 1 2 = true ∧
     entity_equivalent 5 demoParent demoProp 1 3 = true ∧
     entity_equivalent 5 demoParent demoProp 1 5 = false ∧
     entity_equivalent 5 demoParent demoProp 1 6 = false)) :=
  ⟨by decide, C9_propagate_up_equivalence 5 demoParent demoProp 1 3 1 (by decide)⟩
